import Mathlib

/-!
# Verification of `bin-parser.c`

A shallow embedding of the bin-parser program: it reads a binary file as a
stream of packed 12-bit values (two per 3-byte group), tallies occurrences in
a 4096-entry `uint8_t` frequency table, keeps the last 32 values in a ring
buffer, and emits a "sorted max 32 values" report followed by a "last 32
values" report.

Machine integers are modelled as `Nat` with explicit `% 2^w` at the points
where the C types wrap (`uint8_t` counters wrap mod 256, `uint16_t` stores
wrap mod 65536, `size_t` subtraction wraps mod 2^64).  File reads are
modelled by a byte list; file writes by the list of printed values (the
decimal payload of each CRLF-terminated line).  A separate oracle-driven
variant models `fprintf` failures.
-/

namespace BinParser

/-! ## Constants from the source -/

def BITS_PER_VALUE : Nat := 12

def MAX_VALUE : Nat := 0xFFF

def VALUE_ARRAY_SIZE : Nat := MAX_VALUE + 1

def OUTPUT_COUNT : Nat := 32

/-- Macro `UPPER_12BITS_MASK(x)`: `((x) & (MAX_VALUE << BITS_PER_VALUE)) >> BITS_PER_VALUE`. -/
def UPPER12 (x : Nat) : Nat := (x &&& (MAX_VALUE <<< BITS_PER_VALUE)) >>> BITS_PER_VALUE

/-- Macro `LOWER_12BITS_MASK(x)`: `(x) & MAX_VALUE`. -/
def LOWER12 (x : Nat) : Nat := x &&& MAX_VALUE

/-- Combination performed by `get24bits`: `(buffer[0] << 16) | (buffer[1] << 8) | buffer[2]`,
where the buffer holds `uint8_t` bytes (hence the `% 256`). -/
def get24val (b0 b1 b2 : Nat) : Nat :=
  ((b0 % 256) <<< 16) ||| ((b1 % 256) <<< 8) ||| (b2 % 256)

/-! ## Program state

The four globals of the program: `valueCount` (a `uint8_t[4096]`),
`lastValues` (a `uint16_t[32]`), and the ring-buffer cursor and fill count
(`size_t`).  Arrays are modelled as total functions from the index. -/

structure ParserState where
  valueCount : Nat → Nat
  lastValues : Nat → Nat
  lastValuesIdx : Nat
  lastValuesCount : Nat

/-- Zero-initialized globals at process start. -/
def initState : ParserState :=
  { valueCount := fun _ => 0
    lastValues := fun _ => 0
    lastValuesIdx := 0
    lastValuesCount := 0 }

/-- Function `insertValue`: increment the value's counter (`uint8_t`, wraps mod 256),
store the value in the ring buffer at the cursor (`uint16_t` store), advance the
cursor mod 32, and saturate the fill count at 32. -/
def insertValue (value : Nat) (s : ParserState) : ParserState :=
  { valueCount := fun i => if i = value then (s.valueCount value + 1) % 256 else s.valueCount i
    lastValues := fun i => if i = s.lastValuesIdx then value % 65536 else s.lastValues i
    lastValuesIdx := (s.lastValuesIdx + 1) % OUTPUT_COUNT
    lastValuesCount :=
      if s.lastValuesCount < OUTPUT_COUNT then s.lastValuesCount + 1 else s.lastValuesCount }

/-- Fold a list of already-extracted values through `insertValue`. -/
def insertList (vs : List Nat) (s : ParserState) : ParserState :=
  vs.foldl (fun t v => insertValue v t) s

/-! ## Ingestion (`parseInput`)

The read loop of `parseInput`: each `fread` of 3 bytes returns the number of
bytes actually read.  0 means done; 1 is a fatal parse error; 2 yields only
the upper value (the third buffer byte is indeterminate in C but does not
contribute to the upper 12 bits, so it is modelled as 0); 3 yields upper then
lower.  `max` starts at 0 and is bumped by `if (v > max) max = v`.  On
success `parseInput` returns the maximum; on a 1-byte leftover it fails. -/

def parseGroups : List Nat → Nat → ParserState → Option (Nat × ParserState)
  | [], max, s => some (max, s)
  | [_], _, _ => none
  | [b0, b1], max, s =>
    let value := get24val b0 b1 0
    let upper := UPPER12 value
    some (Nat.max max upper, insertValue upper s)
  | b0 :: b1 :: b2 :: rest, max, s =>
    let value := get24val b0 b1 b2
    let upper := UPPER12 value
    let lower := LOWER12 value
    parseGroups rest (Nat.max (Nat.max max upper) lower) (insertValue lower (insertValue upper s))

/-- Entry point of ingestion on a byte list, starting from zeroed globals. -/
def parseInput (bytes : List Nat) : Option (Nat × ParserState) :=
  parseGroups bytes 0 initState

/-- Just the sequence of 12-bit values extracted from the byte stream, in
ingestion order (upper before lower in each group). -/
def parseValues : List Nat → Option (List Nat)
  | [] => some []
  | [_] => none
  | [b0, b1] => some [UPPER12 (get24val b0 b1 0)]
  | b0 :: b1 :: b2 :: rest =>
    (parseValues rest).map fun vs =>
      UPPER12 (get24val b0 b1 b2) :: LOWER12 (get24val b0 b1 b2) :: vs

/-! ## Top-N report (`getCount`, `getStart`, `generateSortedOutput`) -/

/-- Loop of `getCount`: `for(i=max; i>=0 && count<32; i--) if(vc[i]>0) count += vc[i]`.
The first argument of the recursion is the current index `i`. -/
def getCountFrom (vc : Nat → Nat) : Nat → Nat → Nat
  | 0, count =>
    if count < OUTPUT_COUNT then (if 0 < vc 0 then count + vc 0 else count) else count
  | i + 1, count =>
    if count < OUTPUT_COUNT then
      getCountFrom vc i (if 0 < vc (i + 1) then count + vc (i + 1) else count)
    else count

/-- Function `getCount`. -/
def getCount (vc : Nat → Nat) (max : Nat) : Nat := getCountFrom vc max 0

/-- Loop of `getStart`: the same backward scan, returning `i + 1` where the loop
stopped (`i++` after the loop "undoes the last iteration"; when the scan runs
past index 0 the loop exits with `i = -1` and returns 0). -/
def getStartFrom (vc : Nat → Nat) : Nat → Nat → Nat
  | 0, count => if count < OUTPUT_COUNT then 0 else 0 + 1
  | i + 1, count =>
    if count < OUTPUT_COUNT then
      getStartFrom vc i (if 0 < vc (i + 1) then count + vc (i + 1) else count)
    else i + 1 + 1

/-- Function `getStart`. -/
def getStart (vc : Nat → Nat) (max : Nat) : Nat := getStartFrom vc max 0

/-- Emission loop of `generateSortedOutput`:
`for(i=start; count>0; i++, count--)`; empty buckets are skipped by `continue`
(which still runs `i++, count--`); a nonempty bucket prints `thisCount` copies
of `i`, where the first bucket (`i == start`) is truncated by the overshoot
`count - 32` when `count > 32`.  `thisCount` is `int` in C but can only go
negative when the truncated bucket is smaller than the overshoot, in which
case zero lines are printed, matching `Nat` truncated subtraction. -/
def emitFrom (vc : Nat → Nat) (start : Nat) : Nat → Nat → List Nat
  | _, 0 => []
  | i, count + 1 =>
    if vc i = 0 then emitFrom vc start (i + 1) count
    else
      let thisCount :=
        if i = start ∧ OUTPUT_COUNT < count + 1 then vc i - (count + 1 - OUTPUT_COUNT) else vc i
      List.replicate thisCount i ++ emitFrom vc start (i + 1) count

/-- Value lines printed by `generateSortedOutput` (after its header). -/
def generateSortedOutput (vc : Nat → Nat) (max : Nat) : List Nat :=
  emitFrom vc (getStart vc max) (getStart vc max) (getCount vc max)

/-! ## Recency report (`generateLastOutput`) -/

/-- Start offset `(lastValuesIdx - lastValuesCount) % OUTPUT_COUNT` computed in
`size_t` (unsigned 64-bit) arithmetic: the subtraction wraps mod `2^64`. -/
def lastStartIdx (idx count : Nat) : Nat :=
  ((2 ^ 64 + idx - count) % 2 ^ 64) % OUTPUT_COUNT

/-- Loop of `generateLastOutput`: print `lastValues[idx++]`, then `idx %= 32`,
repeated `lastValuesCount` times. -/
def lastLoop (lv : Nat → Nat) : Nat → Nat → List Nat
  | _, 0 => []
  | idx, n + 1 => lv idx :: lastLoop lv ((idx + 1) % OUTPUT_COUNT) n

/-- Value lines printed by `generateLastOutput` (after its header). -/
def generateLastOutput (s : ParserState) : List Nat :=
  lastLoop s.lastValues (lastStartIdx s.lastValuesIdx s.lastValuesCount) s.lastValuesCount

/-! ## Whole-run report -/

/-- One full run of `main` on a byte stream, ignoring write failures:
`none` when ingestion fails (no report is written at all), otherwise the
returned maximum together with the value lines of the Top-N report and of the
Recency report. -/
def runReport (bytes : List Nat) : Option (Nat × List Nat × List Nat) :=
  (parseInput bytes).map fun p =>
    (p.1, generateSortedOutput p.2.valueCount p.1, generateLastOutput p.2)

/-- Sum of all counters of the frequency table (`valueCount` has
`VALUE_ARRAY_SIZE` = 4096 entries). -/
def sumCounts (vc : Nat → Nat) : Nat := ∑ i ∈ Finset.range VALUE_ARRAY_SIZE, vc i

/-! ## Bounds-checked variant of the Top-N report

The same code paths as `getCount`, `getStart` and the emission loop of
`generateSortedOutput`, but every access `valueCount[i]` goes through a
bounds-checked read that fails (`none`) when `i` is outside the array. -/

/-- Bounds-checked read of `valueCount[i]`. -/
def vcRead (vc : Nat → Nat) (i : Nat) : Option Nat :=
  if i < VALUE_ARRAY_SIZE then some (vc i) else none

/-- Loop of `getCount` with checked table reads. -/
def getCountFromChk (vc : Nat → Nat) : Nat → Nat → Option Nat
  | 0, count =>
    if count < OUTPUT_COUNT then
      (vcRead vc 0).map fun c => if 0 < c then count + c else count
    else some count
  | i + 1, count =>
    if count < OUTPUT_COUNT then
      match vcRead vc (i + 1) with
      | none => none
      | some c => getCountFromChk vc i (if 0 < c then count + c else count)
    else some count

/-- Loop of `getStart` with checked table reads. -/
def getStartFromChk (vc : Nat → Nat) : Nat → Nat → Option Nat
  | 0, count =>
    if count < OUTPUT_COUNT then (vcRead vc 0).map fun _ => 0 else some (0 + 1)
  | i + 1, count =>
    if count < OUTPUT_COUNT then
      match vcRead vc (i + 1) with
      | none => none
      | some c => getStartFromChk vc i (if 0 < c then count + c else count)
    else some (i + 1 + 1)

/-- Emission loop of `generateSortedOutput` with checked table reads. -/
def emitFromChk (vc : Nat → Nat) (start : Nat) : Nat → Nat → Option (List Nat)
  | _, 0 => some []
  | i, count + 1 =>
    match vcRead vc i with
    | none => none
    | some c =>
      if c = 0 then emitFromChk vc start (i + 1) count
      else
        let thisCount :=
          if i = start ∧ OUTPUT_COUNT < count + 1 then c - (count + 1 - OUTPUT_COUNT) else c
        (emitFromChk vc start (i + 1) count).map (List.replicate thisCount i ++ ·)

/-- Whole Top-N generation with checked table reads: `none` as soon as any
read is out of the table's bounds. -/
def generateSortedOutputChk (vc : Nat → Nat) (max : Nat) : Option (List Nat) :=
  match getCountFromChk vc max 0 with
  | none => none
  | some count =>
    match getStartFromChk vc max 0 with
    | none => none
    | some start => emitFromChk vc start start count

/-- Ingest a byte stream, then run the checked Top-N generation. -/
def runSortedChk (bytes : List Nat) : Option (Option (List Nat)) :=
  (parseInput bytes).map fun p => generateSortedOutputChk p.2.valueCount p.1

/-! ## Write-failure model of the report generation

`fprintf` calls on the output sink are numbered consecutively; an oracle
`ok : Nat → Bool` says whether the n-th write succeeds (a failing write is
`fprintf` returning a negative value).  Write #0 is the Top-N header, whose
return value the code does not check. -/

/-- Perform `k` consecutive value-line writes starting at write index `wn`
(the inner `for(j=0; j<thisCount; j++)` loop): `none` at the first failing
write, otherwise the next write index. -/
def writeRepeat (ok : Nat → Bool) : Nat → Nat → Option Nat
  | wn, 0 => some wn
  | wn, k + 1 => if ok wn then writeRepeat ok (wn + 1) k else none

/-- Emission loop of `generateSortedOutput` threading the write oracle:
`none` when some value-line write failed (the code then sets `retVal =
FAILURE` and jumps to cleanup). -/
def emitFromW (ok : Nat → Bool) (vc : Nat → Nat) (start : Nat) : Nat → Nat → Nat → Option Nat
  | _, 0, wn => some wn
  | i, count + 1, wn =>
    if vc i = 0 then emitFromW ok vc start (i + 1) count wn
    else
      let thisCount :=
        if i = start ∧ OUTPUT_COUNT < count + 1 then vc i - (count + 1 - OUTPUT_COUNT) else vc i
      match writeRepeat ok wn thisCount with
      | none => none
      | some wn2 => emitFromW ok vc start (i + 1) count wn2

/-- Result of `generateSortedOutput` under the write oracle: the returned
code, whether `fclose` ran (it does on every path, via `cleanup`), and the
next write index (meaningful only on success, where it is used to number the
writes of the following recency report). -/
structure SortedResult where
  retVal : Int
  closed : Bool
  nextWrite : Nat
deriving DecidableEq

/-- Function `generateSortedOutput` under the write oracle.  The header
`fprintf` is write #0; its return value is not checked by the code. -/
def generateSortedOutputW (ok : Nat → Bool) (vc : Nat → Nat) (max : Nat) : SortedResult :=
  match emitFromW ok vc (getStart vc max) (getStart vc max) (getCount vc max) 1 with
  | some wn => ⟨0, true, wn⟩
  | none => ⟨-1, true, 0⟩

/-- Function `generateLastOutput` under the write oracle, starting at write
index `wn`: its header write (unchecked) consumes index `wn`, then each of the
`lastValuesCount` value lines is a checked write. -/
def generateLastOutputW (ok : Nat → Bool) (s : ParserState) (wn : Nat) : Int :=
  match writeRepeat ok (wn + 1) s.lastValuesCount with
  | some _ => 0
  | none => -1

/-- Outcome of the reporting phase of `main`. -/
structure RunResult where
  exitCode : Int
  recencyAttempted : Bool
deriving DecidableEq

/-- Reporting phase of `main` under the write oracle: run the Top-N report;
on failure return `FAILURE` without attempting the recency report; otherwise
run the recency report and return its outcome. -/
def mainW (ok : Nat → Bool) (s : ParserState) (max : Nat) : RunResult :=
  let r := generateSortedOutputW ok s.valueCount max
  if r.retVal < 0 then ⟨-1, false⟩
  else if generateLastOutputW ok s r.nextWrite < 0 then ⟨-1, true⟩
  else ⟨0, true⟩

/-! ## Frequency-table lemmas -/

/-- Each `uint8_t` counter holds the number of occurrences of its value so
far, modulo 256. -/
lemma insertList_valueCount : ∀ (vs : List Nat) (s : ParserState) (v : Nat),
    s.valueCount v < 256 →
    (insertList vs s).valueCount v = (s.valueCount v + vs.count v) % 256
  | [], s, v, hs => by
    simp [insertList, Nat.mod_eq_of_lt hs]
  | w :: vs, s, v, hs => by
    have hlt : (insertValue w s).valueCount v < 256 := by
      by_cases hvw : v = w
      · subst hvw; simp [insertValue]; omega
      · simpa [insertValue, hvw] using hs
    have ih := insertList_valueCount vs (insertValue w s) v hlt
    rw [show insertList (w :: vs) s = insertList vs (insertValue w s) from rfl, ih]
    by_cases hvw : v = w
    · subst hvw
      simp only [insertValue, eq_self_iff_true, if_true, List.count_cons_self]
      rw [Nat.mod_add_mod]
      congr 1
      omega
    · simp [insertValue, hvw, List.count_cons_of_ne hvw]

/-- Starting from the zeroed table, counter `i` holds `count i mod 256`. -/
lemma insertList_valueCount_init (vs : List Nat) :
    (insertList vs initState).valueCount = fun i => vs.count i % 256 := by
  funext i
  simpa [initState] using insertList_valueCount vs initState i (by simp [initState])

/-- Summing the per-value occurrence counts over any range covering all
elements gives the length of the list. -/
lemma sum_count_range (vs : List Nat) (N : Nat) (h : ∀ v ∈ vs, v < N) :
    ∑ i ∈ Finset.range N, vs.count i = vs.length := by
  induction vs with
  | nil => simp
  | cons w vs ih =>
    have hw : w ∈ Finset.range N := Finset.mem_range.mpr (h w (List.mem_cons_self w vs))
    have hsum : ∀ i ∈ Finset.range N, (w :: vs).count i = vs.count i + if i = w then 1 else 0 := by
      intro i _
      rcases eq_or_ne i w with hiw | hiw
      · subst hiw; simp [List.count_cons_self]
      · simp [List.count_cons_of_ne hiw, hiw]
    rw [Finset.sum_congr rfl hsum, Finset.sum_add_distrib,
      ih fun v hv => h v (List.mem_cons_of_mem w hv), Finset.sum_ite_eq' (Finset.range N) w fun _ => 1,
      if_pos hw]
    simp

/-- Modulo-256 variant: when fewer than 256 values were ingested no counter
wraps, and the counters sum to the number of values. -/
lemma sum_countmod_range (vs : List Nat) (N : Nat) (h : ∀ v ∈ vs, v < N)
    (hlen : vs.length < 256) :
    ∑ i ∈ Finset.range N, vs.count i % 256 = vs.length := by
  have hcongr : ∀ i ∈ Finset.range N, vs.count i % 256 = vs.count i := by
    intro i _
    exact Nat.mod_eq_of_lt (lt_of_le_of_lt (List.count_le_length i vs) hlen)
  rw [Finset.sum_congr rfl hcongr, sum_count_range vs N h]

/-! ## Parse lemmas -/

/-- Any input with a dangling single byte after the complete 3-byte groups
makes `parseInput` fail, whatever state the loop had reached. -/
lemma parseGroups_mod3_one : ∀ (bytes : List Nat) (m : Nat) (s : ParserState),
    bytes.length % 3 = 1 → parseGroups bytes m s = none
  | [], _, _, h => absurd h (by simp)
  | [_], _, _, _ => rfl
  | [_, _], _, _, h => absurd h (by simp)
  | _ :: _ :: _ :: rest, m, s, h =>
    parseGroups_mod3_one rest _ _ (by simp at h; omega)

/-- The ingestion loop is the fold of the extracted value sequence through
`insertValue` and the running maximum. -/
lemma parseGroups_eq_parseValues : ∀ (bytes : List Nat) (m : Nat) (s : ParserState),
    parseGroups bytes m s =
      (parseValues bytes).map fun vs => (vs.foldl Nat.max m, insertList vs s)
  | [], _, _ => rfl
  | [_], _, _ => rfl
  | [_, _], _, _ => rfl
  | b0 :: b1 :: b2 :: rest, m, s => by
    have ih := parseGroups_eq_parseValues rest
      (Nat.max (Nat.max m (UPPER12 (get24val b0 b1 b2))) (LOWER12 (get24val b0 b1 b2)))
      (insertValue (LOWER12 (get24val b0 b1 b2)) (insertValue (UPPER12 (get24val b0 b1 b2)) s))
    rw [show parseGroups (b0 :: b1 :: b2 :: rest) m s =
        parseGroups rest
          (Nat.max (Nat.max m (UPPER12 (get24val b0 b1 b2))) (LOWER12 (get24val b0 b1 b2)))
          (insertValue (LOWER12 (get24val b0 b1 b2)) (insertValue (UPPER12 (get24val b0 b1 b2)) s))
        from rfl, ih]
    show _ = Option.map _ (Option.map _ (parseValues rest))
    rw [Option.map_map]
    rfl

/-- Number of values extracted from a byte stream: two per complete 3-byte
group plus one for a trailing 2-byte group. -/
lemma parseValues_length : ∀ (bytes : List Nat) (vs : List Nat),
    parseValues bytes = some vs →
    vs.length = 2 * (bytes.length / 3) + if bytes.length % 3 = 2 then 1 else 0
  | [], vs, h => by
    cases h; simp
  | [_], vs, h => by cases h
  | [_, _], vs, h => by
    cases h; simp
  | b0 :: b1 :: b2 :: rest, vs, h => by
    cases hrest : parseValues rest with
    | none => rw [parseValues, hrest] at h; cases h
    | some ws =>
      rw [parseValues, hrest] at h
      cases h
      have ih := parseValues_length rest ws hrest
      simp only [List.length_cons]
      rw [ih]
      have h3 : (rest.length + 1 + 1 + 1) / 3 = rest.length / 3 + 1 := by omega
      have h4 : (rest.length + 1 + 1 + 1) % 3 = rest.length % 3 := by omega
      simp only [h3, h4]
      ring

/-- Both halves of a group are 12-bit values. -/
lemma UPPER12_lt (x : Nat) : UPPER12 x < VALUE_ARRAY_SIZE := by
  have h1 : x &&& (MAX_VALUE <<< BITS_PER_VALUE) ≤ MAX_VALUE <<< BITS_PER_VALUE :=
    Nat.and_le_right
  have h2 : UPPER12 x ≤ (MAX_VALUE <<< BITS_PER_VALUE) >>> BITS_PER_VALUE := by
    unfold UPPER12
    simp only [Nat.shiftRight_eq_div_pow]
    exact Nat.div_le_div_right h1
  refine lt_of_le_of_lt h2 ?_
  decide

/-- The low half of a group is a 12-bit value. -/
lemma LOWER12_lt (x : Nat) : LOWER12 x < VALUE_ARRAY_SIZE := by
  have h1 : LOWER12 x ≤ MAX_VALUE := Nat.and_le_right
  exact lt_of_le_of_lt h1 (by decide)

/-- Every extracted value is a 12-bit value. -/
lemma parseValues_lt : ∀ (bytes : List Nat) (vs : List Nat),
    parseValues bytes = some vs → ∀ v ∈ vs, v < VALUE_ARRAY_SIZE
  | [], vs, h => by cases h; simp
  | [_], vs, h => by cases h
  | [b0, b1], vs, h => by
    cases h
    intro v hv
    simp only [List.mem_singleton] at hv
    subst hv
    exact UPPER12_lt _
  | b0 :: b1 :: b2 :: rest, vs, h => by
    cases hrest : parseValues rest with
    | none => rw [parseValues, hrest] at h; cases h
    | some ws =>
      rw [parseValues, hrest] at h
      cases h
      intro v hv
      simp only [List.mem_cons] at hv
      rcases hv with hv | hv | hv
      · subst hv; exact UPPER12_lt _
      · subst hv; exact LOWER12_lt _
      · exact parseValues_lt rest ws hrest v hv

/-! ## Top-N scan lemmas

When the total of all counters in `[0, max]` stays below 32 the early-stop
condition of the two backward scans never fires: `getCount` returns the total
and `getStart` runs past index 0 and returns 0. -/

lemma getCountFrom_small (vc : Nat → Nat) : ∀ (i count : Nat),
    count + ∑ j ∈ Finset.range (i + 1), vc j < OUTPUT_COUNT →
    getCountFrom vc i count = count + ∑ j ∈ Finset.range (i + 1), vc j
  | 0, count, h => by
    have h0 : count < OUTPUT_COUNT := lt_of_le_of_lt (Nat.le_add_right _ _) h
    rw [getCountFrom, if_pos h0]
    simp only [show (0 : Nat) + 1 = 1 from rfl, Finset.sum_range_one]
    by_cases hv : 0 < vc 0
    · rw [if_pos hv]
    · rw [if_neg hv]; omega
  | i + 1, count, h => by
    have hsplit := Finset.sum_range_succ vc (i + 1)
    have h0 : count < OUTPUT_COUNT := lt_of_le_of_lt (Nat.le_add_right _ _) h
    rw [getCountFrom, if_pos h0]
    by_cases hv : 0 < vc (i + 1)
    · rw [if_pos hv, getCountFrom_small vc i (count + vc (i + 1)) (by omega)]
      omega
    · rw [if_neg hv, getCountFrom_small vc i count (by omega)]
      omega

lemma getStartFrom_small (vc : Nat → Nat) : ∀ (i count : Nat),
    count + ∑ j ∈ Finset.range (i + 1), vc j < OUTPUT_COUNT →
    getStartFrom vc i count = 0
  | 0, count, h => by
    have h0 : count < OUTPUT_COUNT := lt_of_le_of_lt (Nat.le_add_right _ _) h
    rw [getStartFrom, if_pos h0]
  | i + 1, count, h => by
    have hsplit := Finset.sum_range_succ vc (i + 1)
    have h0 : count < OUTPUT_COUNT := lt_of_le_of_lt (Nat.le_add_right _ _) h
    rw [getStartFrom, if_pos h0]
    by_cases hv : 0 < vc (i + 1)
    · rw [if_pos hv, getStartFrom_small vc i (count + vc (i + 1)) (by omega)]
    · rw [if_neg hv, getStartFrom_small vc i count (by omega)]

lemma getCount_small (vc : Nat → Nat) (max : Nat)
    (h : ∑ j ∈ Finset.range (max + 1), vc j < OUTPUT_COUNT) :
    getCount vc max = ∑ j ∈ Finset.range (max + 1), vc j := by
  have := getCountFrom_small vc max 0 (by omega)
  simpa [getCount] using this

lemma getStart_small (vc : Nat → Nat) (max : Nat)
    (h : ∑ j ∈ Finset.range (max + 1), vc j < OUTPUT_COUNT) :
    getStart vc max = 0 := by
  have := getStartFrom_small vc max 0 (by omega)
  simpa [getStart] using this

/-! ## Ring-buffer lemmas -/

/-- The cursor after a sequence of insertions. -/
lemma insertList_idx : ∀ (vs : List Nat) (s : ParserState),
    s.lastValuesIdx < OUTPUT_COUNT →
    (insertList vs s).lastValuesIdx = (s.lastValuesIdx + vs.length) % OUTPUT_COUNT
  | [], s, h => by
    simp [insertList, Nat.mod_eq_of_lt h]
  | w :: vs, s, h => by
    rw [show insertList (w :: vs) s = insertList vs (insertValue w s) from rfl,
      insertList_idx vs (insertValue w s) (Nat.mod_lt _ (by norm_num [OUTPUT_COUNT]))]
    show ((s.lastValuesIdx + 1) % OUTPUT_COUNT + vs.length) % OUTPUT_COUNT = _
    rw [Nat.mod_add_mod]
    congr 1
    simp only [List.length_cons]
    omega

/-- The fill count after a sequence of insertions saturates at 32. -/
lemma insertList_count_sat : ∀ (vs : List Nat) (s : ParserState),
    s.lastValuesCount ≤ OUTPUT_COUNT →
    (insertList vs s).lastValuesCount = min (s.lastValuesCount + vs.length) OUTPUT_COUNT
  | [], s, h => by
    simp only [insertList, List.foldl_nil, List.length_nil, Nat.add_zero]
    omega
  | w :: vs, s, h => by
    have hstep : (insertValue w s).lastValuesCount =
        if s.lastValuesCount < OUTPUT_COUNT then s.lastValuesCount + 1
        else s.lastValuesCount := rfl
    rw [show insertList (w :: vs) s = insertList vs (insertValue w s) from rfl,
      insertList_count_sat vs (insertValue w s) (by rw [hstep]; split <;> omega), hstep]
    simp only [List.length_cons]
    split <;> omega

/-- Slot `j % 32` of the buffer holds element `j` of the stream, for each `j`
among the last `min 32` positions. -/
lemma insertList_buf : ∀ (vs : List Nat) (j : Nat),
    (∀ v ∈ vs, v < VALUE_ARRAY_SIZE) → j < vs.length → vs.length ≤ j + OUTPUT_COUNT →
    (insertList vs initState).lastValues (j % OUTPUT_COUNT) = vs.getD j 0 := by
  intro vs
  induction vs using List.reverseRecOn with
  | nil =>
    intro j _ hj _
    simp at hj
  | append_singleton vs v ih =>
    intro j hall hj1 hj2
    have hfold : insertList (vs ++ [v]) initState = insertValue v (insertList vs initState) := by
      simp [insertList, List.foldl_append]
    have hidx : (insertList vs initState).lastValuesIdx = vs.length % OUTPUT_COUNT := by
      have h0 : initState.lastValuesIdx < OUTPUT_COUNT := by norm_num [initState, OUTPUT_COUNT]
      simpa [initState] using insertList_idx vs initState h0
    have hstep : (insertValue v (insertList vs initState)).lastValues (j % OUTPUT_COUNT) =
        if j % OUTPUT_COUNT = (insertList vs initState).lastValuesIdx then v % 65536
        else (insertList vs initState).lastValues (j % OUTPUT_COUNT) := rfl
    simp only [List.length_append, List.length_singleton] at hj1 hj2
    rw [hfold, hstep, hidx]
    rcases Nat.lt_succ_iff_lt_or_eq.mp hj1 with hlt | heq
    · have hne : j % OUTPUT_COUNT ≠ vs.length % OUTPUT_COUNT := by
        unfold OUTPUT_COUNT at *
        omega
      rw [if_neg hne, ih j (fun u hu => hall u (List.mem_append_left _ hu)) hlt (by omega),
        List.getD_append _ _ _ _ hlt]
    · subst heq
      rw [if_pos rfl]
      have hv : v < VALUE_ARRAY_SIZE := hall v (List.mem_append_right _ (List.mem_singleton_self v))
      rw [Nat.mod_eq_of_lt (by unfold VALUE_ARRAY_SIZE MAX_VALUE at hv; omega),
        List.getD_append_right _ _ _ _ (le_refl _)]
      simp

/-- The recency print loop visits slots `(idx + k) % 32` for `k < n`. -/
lemma lastLoop_map : ∀ (n idx : Nat) (lv : Nat → Nat),
    lastLoop lv (idx % OUTPUT_COUNT) n = (List.range n).map fun k => lv ((idx + k) % OUTPUT_COUNT)
  | 0, _, _ => rfl
  | n + 1, idx, lv => by
    rw [lastLoop, Nat.mod_add_mod, lastLoop_map n (idx + 1) lv, List.range_succ_eq_map]
    simp only [List.map_cons, List.map_map, Nat.add_zero]
    congr 1
    apply List.map_congr_left
    intro k _
    simp only [Function.comp_apply]
    congr 2
    omega

/-- The `size_t` wraparound start-offset computation, at the cursor and fill
count reached after `len` insertions, is `(len - min len 32) mod 32`. -/
lemma lastStartIdx_eq (len : Nat) :
    lastStartIdx (len % OUTPUT_COUNT) (min len OUTPUT_COUNT)
      = (len - min len OUTPUT_COUNT) % OUTPUT_COUNT := by
  unfold lastStartIdx OUTPUT_COUNT
  have h64 : (2 : Nat) ^ 64 = 18446744073709551616 := by norm_num
  rw [h64]
  omega

/-- Reading `len - off` consecutive positions of a list starting at `off`
gives its suffix from `off`. -/
lemma map_getD_range_eq_drop (vs : List Nat) (off : Nat) :
    (List.range (vs.length - off)).map (fun k => vs.getD (off + k) 0) = vs.drop off := by
  apply List.ext_getElem
  · simp
  · intro n h1 h2
    have h2' : off + n < vs.length := by
      have hd := h2
      simp only [List.length_drop] at hd
      omega
    simp only [List.getElem_map, List.getElem_range]
    rw [List.getD_eq_getElem _ _ h2', List.getElem_drop]

/-! ## Small-stream evaluation helpers -/

/-- For a stream of fewer than 32 values all bounded by `max`, the two
backward scans return the total number of values and start index 0, so the
whole Top-N report reduces to the emission loop on the window `[0, total)`. -/
lemma generateSortedOutput_insertList (vs : List Nat) (max : Nat)
    (hall : ∀ v ∈ vs, v < max + 1) (hlen : vs.length < OUTPUT_COUNT)
    (hlen2 : vs.length < 256) :
    generateSortedOutput (insertList vs initState).valueCount max
      = emitFrom (fun i => vs.count i % 256) 0 0 vs.length := by
  rw [insertList_valueCount_init]
  unfold generateSortedOutput
  have hsum : ∑ j ∈ Finset.range (max + 1), vs.count j % 256 = vs.length :=
    sum_countmod_range vs (max + 1) hall hlen2
  have hlt32 : (∑ j ∈ Finset.range (max + 1), vs.count j % 256) < OUTPUT_COUNT := by
    rw [hsum]; exact hlen
  rw [getStart_small _ max hlt32, getCount_small _ max hlt32, hsum]

/-- Full-run evaluation on the three-byte example `0x0F 0xFF 0x00`. -/
lemma runReport_demo3 : runReport [0x0F, 0xFF, 0x00] = some (3840, [], [255, 3840]) := by
  unfold runReport parseInput
  rw [show parseGroups [0x0F, 0xFF, 0x00] 0 initState
      = some (3840, insertList [255, 3840] initState) from rfl]
  simp only [Option.map_some']
  have h1 : generateSortedOutput (insertList [255, 3840] initState).valueCount 3840 = [] := by
    rw [generateSortedOutput_insertList [255, 3840] 3840 (by decide) (by decide) (by decide)]
    decide
  have h2 : generateLastOutput (insertList [255, 3840] initState) = [255, 3840] := by decide
  rw [h1, h2]

/-- Full-run evaluation on the two-byte example `0xAB 0xCD`. -/
lemma runReport_demo2 : runReport [0xAB, 0xCD] = some (2748, [], [2748]) := by
  unfold runReport parseInput
  rw [show parseGroups [0xAB, 0xCD] 0 initState
      = some (2748, insertList [2748] initState) from rfl]
  simp only [Option.map_some']
  have h1 : generateSortedOutput (insertList [2748] initState).valueCount 2748 = [] := by
    rw [generateSortedOutput_insertList [2748] 2748 (by decide) (by decide) (by decide)]
    decide
  have h2 : generateLastOutput (insertList [2748] initState) = [2748] := by decide
  rw [h1, h2]

/-- The zero byte stream of length `3n` parses to `2n` zero values. -/
lemma parseValues_replicate_zero : ∀ n : Nat,
    parseValues (List.replicate (3 * n) 0) = some (List.replicate (2 * n) 0)
  | 0 => rfl
  | n + 1 => by
    rw [show 3 * (n + 1) = 3 * n + 1 + 1 + 1 from by ring, List.replicate_succ,
      List.replicate_succ, List.replicate_succ]
    rw [show parseValues (0 :: 0 :: 0 :: List.replicate (3 * n) 0)
        = (parseValues (List.replicate (3 * n) 0)).map fun vs =>
            UPPER12 (get24val 0 0 0) :: LOWER12 (get24val 0 0 0) :: vs from rfl]
    rw [parseValues_replicate_zero n]
    rw [show 2 * (n + 1) = 2 * n + 1 + 1 from by ring, List.replicate_succ,
      List.replicate_succ]
    rfl

/-- Counter sum after ingesting a value stream, as a sum of per-value
occurrence counts mod 256. -/
lemma sumCounts_insertList_init (vs : List Nat) :
    sumCounts (insertList vs initState).valueCount
      = ∑ i ∈ Finset.range VALUE_ARRAY_SIZE, vs.count i % 256 := by
  unfold sumCounts
  rw [insertList_valueCount_init]

/-! ## Claims -/

/-- C1.  The claim says the Top-N report always prints exactly
`min 32 total` value lines, non-increasing, consisting of the largest
occurrences.  The code violates this: on the stream `0x0F 0xFF 0x00`
(values 255 and 3840) the emission loop's `count` is consumed by the empty
buckets 0 and 1 and zero value lines are printed instead of `min 32 2 = 2`. -/
theorem c1_topn_linecount_bug :
    (runReport [0x0F, 0xFF, 0x00]).map (fun p => p.2.1.length) = some 0 ∧
    0 ≠ min OUTPUT_COUNT 2 := by
  rw [runReport_demo3]
  exact ⟨rfl, by decide⟩

/-- C2.  On input `0x0F 0xFF 0x00` ingestion does yield 255 then 3840 and the
max-seen value 3840, and the Recency report does print `255, 3840`; but the
Top-N report prints no value line at all, not the claimed `3840, 255`. -/
theorem c2_roundtrip_bug :
    parseValues [0x0F, 0xFF, 0x00] = some [255, 3840] ∧
    runReport [0x0F, 0xFF, 0x00] = some (3840, [], [255, 3840]) :=
  ⟨by decide, runReport_demo3⟩

/-- C3.  On input `0xAB 0xCD` ingestion does yield the single value 2748 and
the Recency report prints the single line `2748`; but the Top-N report prints
no value line, not the claimed single `2748` line. -/
theorem c3_two_byte_bug :
    parseValues [0xAB, 0xCD] = some [2748] ∧
    runReport [0xAB, 0xCD] = some (2748, [], [2748]) :=
  ⟨by decide, runReport_demo2⟩

/-- C4 (counterexample).  After ingesting 384 zero bytes (256 zero values)
the `uint8_t` counter of value 0 has wrapped to 0, so the counters sum to 0
while the claimed total `2*(384/3) = 256` is nonzero. -/
theorem c4_counts_sum_cex :
    (parseInput (List.replicate 384 (0 : Nat))).map (fun p => sumCounts p.2.valueCount)
      = some 0 ∧
    2 * ((List.replicate 384 (0 : Nat)).length / 3)
      + (if (List.replicate 384 (0 : Nat)).length % 3 = 2 then 1 else 0) = 256 ∧
    (0 : Nat) ≠ 256 := by
  refine ⟨?_, by norm_num, by decide⟩
  have hv : parseValues (List.replicate 384 (0 : Nat)) = some (List.replicate 256 0) := by
    have h := parseValues_replicate_zero 128
    norm_num at h
    exact h
  have heq : sumCounts (insertList (List.replicate 256 0) initState).valueCount = 0 := by
    rw [sumCounts_insertList_init]
    exact Finset.sum_eq_zero fun i _ => by
      rw [List.count_replicate]
      split <;> norm_num
  unfold parseInput
  rw [parseGroups_eq_parseValues _ 0 initState, hv, Option.map_some']
  exact congrArg some heq

/-- C4 (amended).  Each counter is the occurrence count of its value mod 256;
when no value occurs more than 255 times the counters sum exactly to the
total number of values ingested, `2*(bytes/3) + (1 if bytes%3==2)`. -/
theorem c4_counts_sum_amended (bytes vs : List Nat)
    (h1 : parseValues bytes = some vs) (h2 : ∀ v, vs.count v ≤ 255) :
    (parseInput bytes).map (fun p => sumCounts p.2.valueCount)
      = some (2 * (bytes.length / 3) + if bytes.length % 3 = 2 then 1 else 0) := by
  have hmod : ∀ i ∈ Finset.range VALUE_ARRAY_SIZE, vs.count i % 256 = vs.count i :=
    fun i _ => Nat.mod_eq_of_lt (lt_of_le_of_lt (h2 i) (by norm_num))
  have heq : sumCounts (insertList vs initState).valueCount
      = 2 * (bytes.length / 3) + if bytes.length % 3 = 2 then 1 else 0 := by
    rw [sumCounts_insertList_init, Finset.sum_congr rfl hmod,
      sum_count_range vs _ (parseValues_lt bytes vs h1), parseValues_length bytes vs h1]
  unfold parseInput
  rw [parseGroups_eq_parseValues bytes 0 initState, h1, Option.map_some']
  exact congrArg some heq

/-- C4 witness: on the three-byte example the amended claim evaluates to
2 values and counter sum 2. -/
theorem c4_counts_sum_amended_witness :
    parseValues [0x0F, 0xFF, 0x00] = some [255, 3840] ∧
    (parseInput [0x0F, 0xFF, 0x00]).map (fun p => sumCounts p.2.valueCount)
      = some (2 * (([0x0F, 0xFF, 0x00] : List Nat).length / 3)
          + if ([0x0F, 0xFF, 0x00] : List Nat).length % 3 = 2 then 1 else 0) :=
  ⟨by decide, c4_counts_sum_amended [0x0F, 0xFF, 0x00] [255, 3840] (by decide)
    fun v => le_trans (List.count_le_length v [255, 3840]) (by decide)⟩

/-- C5.  After ingesting any stream of 12-bit values, the ring buffer's fill
count is `min K 32` and the Recency report prints exactly the last
`min K 32` values of the stream in arrival order. -/
theorem c5_recency_correct (vs : List Nat) (h : ∀ v ∈ vs, v < VALUE_ARRAY_SIZE) :
    (insertList vs initState).lastValuesCount = min vs.length OUTPUT_COUNT ∧
    generateLastOutput (insertList vs initState) = vs.drop (vs.length - OUTPUT_COUNT) := by
  have hmin1 := Nat.min_le_left vs.length OUTPUT_COUNT
  have hmin2 := Nat.min_le_right vs.length OUTPUT_COUNT
  have hcnt : (insertList vs initState).lastValuesCount = min vs.length OUTPUT_COUNT := by
    have h0 : initState.lastValuesCount ≤ OUTPUT_COUNT := by norm_num [initState, OUTPUT_COUNT]
    simpa [initState] using insertList_count_sat vs initState h0
  refine ⟨hcnt, ?_⟩
  have hidx : (insertList vs initState).lastValuesIdx = vs.length % OUTPUT_COUNT := by
    have h0 : initState.lastValuesIdx < OUTPUT_COUNT := by norm_num [initState, OUTPUT_COUNT]
    simpa [initState] using insertList_idx vs initState h0
  unfold generateLastOutput
  rw [hcnt, hidx, lastStartIdx_eq, lastLoop_map (min vs.length OUTPUT_COUNT)
    (vs.length - min vs.length OUTPUT_COUNT) _]
  have helems : ∀ k ∈ List.range (min vs.length OUTPUT_COUNT),
      (insertList vs initState).lastValues
          ((vs.length - min vs.length OUTPUT_COUNT + k) % OUTPUT_COUNT)
        = vs.getD (vs.length - min vs.length OUTPUT_COUNT + k) 0 := by
    intro k hk
    rw [List.mem_range] at hk
    exact insertList_buf vs _ h (by omega) (by omega)
  rw [List.map_congr_left helems]
  have h1 := map_getD_range_eq_drop vs (vs.length - min vs.length OUTPUT_COUNT)
  rw [show vs.length - (vs.length - min vs.length OUTPUT_COUNT)
      = min vs.length OUTPUT_COUNT from by omega] at h1
  rw [h1, show vs.length - min vs.length OUTPUT_COUNT = vs.length - OUTPUT_COUNT from by omega]

/-- C5 witness: three ingested values are reported back in full, in order. -/
theorem c5_recency_correct_witness :
    (∀ v ∈ ([5, 7, 9] : List Nat), v < VALUE_ARRAY_SIZE) ∧
    ((insertList [5, 7, 9] initState).lastValuesCount
        = min ([5, 7, 9] : List Nat).length OUTPUT_COUNT ∧
      generateLastOutput (insertList [5, 7, 9] initState)
        = ([5, 7, 9] : List Nat).drop (([5, 7, 9] : List Nat).length - OUTPUT_COUNT)) :=
  ⟨by decide, c5_recency_correct [5, 7, 9] (by decide)⟩

/-- C6.  Any input with a dangling single byte (length ≡ 1 mod 3) makes
ingestion fail and the run produces no report at all. -/
theorem c6_one_byte_leftover (bytes : List Nat) (h : bytes.length % 3 = 1) :
    runReport bytes = none := by
  unfold runReport parseInput
  rw [parseGroups_mod3_one bytes 0 initState h]
  rfl

/-- C6 witness: the single-byte input fails. -/
theorem c6_one_byte_leftover_witness :
    ([0] : List Nat).length % 3 = 1 ∧ runReport [0] = none :=
  ⟨by decide, c6_one_byte_leftover [0] (by decide)⟩

/-- C7.  The empty input succeeds and both reports have no value lines. -/
theorem c7_empty_input : runReport [] = some (0, [], []) := rfl

/-- C8 (counterexample).  The header `fprintf` of the Top-N report is
unchecked: under an oracle failing exactly write #0 (the header), the run
still succeeds and the Recency report is still attempted. -/
theorem c8_header_write_cex :
    (fun n => !(n == 0) : Nat → Bool) 0 = false ∧
    mainW (fun n => !(n == 0)) initState 0 = ⟨0, true⟩ :=
  ⟨rfl, by decide⟩

/-- C8 (amended).  When a value-line write of the Top-N report fails, the
report returns failure with the sink closed, and `main` returns failure
without attempting the Recency report. -/
theorem c8_value_write_failure (ok : Nat → Bool) (s : ParserState) (max : Nat)
    (h : emitFromW ok s.valueCount (getStart s.valueCount max) (getStart s.valueCount max)
        (getCount s.valueCount max) 1 = none) :
    generateSortedOutputW ok s.valueCount max = ⟨-1, true, 0⟩ ∧
    mainW ok s max = ⟨-1, false⟩ := by
  have hg : generateSortedOutputW ok s.valueCount max = ⟨-1, true, 0⟩ := by
    unfold generateSortedOutputW
    rw [h]
  refine ⟨hg, ?_⟩
  unfold mainW
  rw [hg]
  norm_num

/-- C8 witness: with a single counted value and an all-failing oracle the
first value-line write fails and the run aborts before the Recency report. -/
theorem c8_value_write_failure_witness :
    emitFromW (fun _ => false) (insertValue 0 initState).valueCount
        (getStart (insertValue 0 initState).valueCount 0)
        (getStart (insertValue 0 initState).valueCount 0)
        (getCount (insertValue 0 initState).valueCount 0) 1 = none ∧
    mainW (fun _ => false) (insertValue 0 initState) 0 = ⟨-1, false⟩ :=
  ⟨by decide,
    (c8_value_write_failure (fun _ => false) (insertValue 0 initState) 0 (by decide)).2⟩

set_option maxRecDepth 40000 in
/-- C9.  The claim says every frequency-table read in the Top-N generation is
within bounds.  The code violates this: ingesting 20 groups `FF FF FF`
(40 occurrences of value 4095) makes the emission loop walk past index 4095,
and the bounds-checked run reports an out-of-range read. -/
theorem c9_oob_read : runSortedChk (List.replicate 60 0xFF) = some none := by decide

/-- C10.  On every reachable cursor/fill-count pair the `size_t` wraparound
computation of the recency start offset agrees with the mathematical
non-negative remainder `(idx - count) mod 32`. -/
theorem c10_ring_start_offset (idx count : Nat)
    (h1 : idx < OUTPUT_COUNT) (h2 : count ≤ OUTPUT_COUNT) :
    (lastStartIdx idx count : Int) = ((idx : Int) - count) % 32 := by
  unfold lastStartIdx OUTPUT_COUNT at *
  have h64 : (2 : Nat) ^ 64 = 18446744073709551616 := by norm_num
  rw [h64]
  omega

/-- C10 witness: cursor 5 with a full buffer starts at slot 5. -/
theorem c10_ring_start_offset_witness :
    5 < OUTPUT_COUNT ∧ 32 ≤ OUTPUT_COUNT ∧
    (lastStartIdx 5 32 : Int) = ((5 : Int) - 32) % 32 :=
  ⟨by decide, by decide, c10_ring_start_offset 5 32 (by decide) (by decide)⟩

end BinParser
